import Mathlib

set_option maxHeartbeats 1000000

namespace OvTf

/-! # Shallow embedding of the TensorFlow FrontEnd conversion core

Embeds `src/frontends/tensorflow/src/frontend.cpp`: the unsupported-operation /
failure collector, the targeted retry path (`translate_framework_node`), the
conversion pipeline (`convert`, `convert_partially`, `decode`, the `Model`
overload of `convert`), `normalize` and `add_extension`.  External collaborators
(the `TranslateSession`, the opaque rewrite passes) are modelled from the spec
as opaque functions of an `Oracle` record. -/

/-- The data a `FrameworkNode` (Placeholder Node) carries: the original op-type
tag (`get_decoder()->get_op_type()`) and, when present, the value stored under
`FrameworkNode::failed_conversion_key` in its attributes (`get_attrs()`). -/
structure FWData where
  opType : String
  failedMsg : Option String
deriving DecidableEq, Repr

/-- An IR graph in `get_ordered_ops()` order.  `Graph.nil` is the empty node
sequence; `Graph.cons fw subs rest` is one node followed by the rest of the
sequence.  The node is a `FrameworkNode` iff `fw = some d` (with `d` its
attributes); `subs` is the ordered sequence of the nodes of its nested
subgraphs (`MultiSubGraphOp::get_function(0) ... get_function(n-1)`,
concatenated in index order — the C++ collector threads one accumulator
through the subgraphs consecutively, so the per-subgraph grouping is
irrelevant to every traversal in this file).  A node with `subs = Graph.nil`
has no nested subgraph, i.e. is not treated as a `MultiSubGraphOp`. -/
inductive Graph : Type where
  | nil : Graph
  | cons (fw : Option FWData) (subs : Graph) (rest : Graph) : Graph
deriving DecidableEq, Repr

/-- List-backed lookup with string keys, mirroring `std::unordered_map::find`
/ `count` on the maps of the source (translator dictionary, failure map). -/
def lookupKey {β : Type} : List (String × β) → String → Option β
  | [], _ => none
  | (k, v) :: rest, t => if k = t then some v else lookupKey rest t

/-- Key update, mirroring `map[key] = value` (insert-or-assign) on
`m_op_translators`. -/
def setKey {β : Type} : List (String × β) → String → β → List (String × β)
  | [], k, v => [(k, v)]
  | (k', v') :: rest, k, v =>
    if k' = k then (k, v) :: rest else (k', v') :: setKey rest k v

/-- Accumulator of the collector: the `unsupported_operations` vector and the
`failures` map (entries in reverse insertion order; each key inserted at most
once, so the list is a faithful model of the `unordered_map`). -/
abbrev CollectAcc := List String × List (String × String)

/-- One classification step of `get_unsupported_operations_and_failures` for a
single `FrameworkNode` with attributes `d` (frontend.cpp lines 39-51):
if the node carries `failed_conversion_key` and its op type is not yet a key of
`failures`, record the failure; otherwise append the op type to
`unsupported_operations` unless already present. -/
def collectStep (acc : CollectAcc) (d : FWData) : CollectAcc :=
  match d.failedMsg with
  | some m =>
    if (lookupKey acc.2 d.opType).isNone then
      (acc.1, (d.opType, m) :: acc.2)
    else if d.opType ∈ acc.1 then acc
    else (acc.1 ++ [d.opType], acc.2)
  | none =>
    if d.opType ∈ acc.1 then acc
    else (acc.1 ++ [d.opType], acc.2)

/-- The `FrameworkNode` classification applied when the `as_type_ptr` cast
succeeds, skipped otherwise. -/
def collectFw : Option FWData → CollectAcc → CollectAcc
  | none, acc => acc
  | some d, acc => collectStep acc d

/-- `get_unsupported_operations_and_failures` (frontend.cpp lines 35-60):
walk the ordered ops; classify each `FrameworkNode`; recurse into every nested
subgraph of a `MultiSubGraphOp` immediately after visiting the owning node,
threading the two accumulators through. -/
def get_unsupported_operations_and_failures : Graph → CollectAcc → CollectAcc
  | .nil, acc => acc
  | .cons fw subs rest, acc =>
    get_unsupported_operations_and_failures rest
      (get_unsupported_operations_and_failures subs (collectFw fw acc))

/-- The `FrameworkNode` attribute records of a graph, in exactly the order the
collector visits them: each node first, then the nodes of its nested
subgraphs, then the following nodes. -/
def fwListG : Graph → List FWData
  | .nil => []
  | .cons fw subs rest =>
    (match fw with | none => [] | some d => [d]) ++ (fwListG subs ++ fwListG rest)

/-- The failure message of the first `FrameworkNode` in a traversal that
carries `failed_conversion_key` and the given op type, if any. -/
def firstFailMsg : List FWData → String → Option String
  | [], _ => none
  | d :: rest, t =>
    match d.failedMsg with
    | some m => if d.opType = t then some m else firstFailMsg rest t
    | none => firstFailMsg rest t

/-- Left-biased choice on optional strings. -/
def optOr : Option String → Option String → Option String
  | some m, _ => some m
  | none, b => b

/-- How many `FrameworkNode` records of a traversal carry the given op type. -/
def countTag (L : List FWData) (t : String) : Nat :=
  (L.filter (fun d => d.opType == t)).length

/-! ## Translators and the targeted retry path -/

instance {ε α : Type} [DecidableEq ε] [DecidableEq α] : DecidableEq (Except ε α) :=
  fun a b =>
    match a, b with
    | .error e, .error e' =>
      if h : e = e' then isTrue (by rw [h]) else isFalse (by intro hc; cases hc; exact h rfl)
    | .error _, .ok _ => isFalse (by intro hc; cases hc)
    | .ok _, .error _ => isFalse (by intro hc; cases hc)
    | .ok v, .ok v' =>
      if h : v = v' then isTrue (by rw [h]) else isFalse (by intro hc; cases hc; exact h rfl)

/-- A registered translator.  Invoking it on a node context either produces an
ordered `OutputVector` (modelled by the identifiers of the produced output
ports) or raises with a message.  The concrete per-op translators are external
collaborators, so only this invocation behaviour is modelled. -/
structure Translator where
  run : Except String (List Nat)
deriving DecidableEq, Repr

/-- One output port of a `FrameworkNode`: the set of target inputs currently
consuming it, in order (`Output::replace` rewires exactly these). -/
structure OutPort where
  consumers : List Nat
deriving DecidableEq, Repr

/-- The port-level view of a `FrameworkNode` needed by
`translate_framework_node`: its stored op type and its output ports. -/
structure FrameworkNodePorts where
  op_type : String
  outputs : List OutPort
deriving DecidableEq, Repr

/-- The rewiring loop of `translate_framework_node` (frontend.cpp lines 74-80):
walk the old output ports and the freshly produced outputs in lockstep, and for
each pair redirect every consumer of the old port to the new output; stop as
soon as either side is exhausted. -/
def rewirePorts : List OutPort → List Nat → List (Nat × Nat)
  | old :: olds, n :: ns => old.consumers.map (fun c => (c, n)) ++ rewirePorts olds ns
  | _, _ => []

/-- `translate_framework_node` (frontend.cpp lines 62-81): look the stored op
type up in the translator dictionary, raising when absent; invoke the
translator (its own error propagates); replace each old output port by the
positionally matching new output.  The result lists the performed rewirings as
(consumer, new output) pairs in port order. -/
def translate_framework_node (node : FrameworkNodePorts)
    (op_translators : List (String × Translator)) : Except String (List (Nat × Nat)) :=
  match lookupKey op_translators node.op_type with
  | none => .error ("No translator found for " ++ node.op_type ++ " node.")
  | some translator =>
    match translator.run with
    | .error e => .error e
    | .ok new_node_outputs => .ok (rewirePorts node.outputs new_node_outputs)

/-! ## The FrontEnd instance state and `add_extension` -/

/-- The members of the `FrontEnd` instance that the file reads or mutates.
Transformation extensions, conversion extensions and loaded shared-object
handles are opaque to this core; only their presence (list length) matters. -/
structure FEState where
  m_op_translators : List (String × Translator)
  m_telemetry : Bool
  m_transformation_extensions : List Unit
  m_conversion_extensions : List Unit
  m_extensions : List Unit
deriving DecidableEq, Repr

/-- The closed set of extension kinds `add_extension` discriminates between
via `dynamic_pointer_cast` (frontend.cpp lines 336-364).  A common (generic)
conversion extension carries an optional indexed converter and an optional
named-and-indexed converter; `other` stands for every extension implementing
none of the recognized capabilities. -/
inductive Extension : Type where
  | telemetry : Extension
  | decoderTransformation : Extension
  | soExtension (inner : Extension) : Extension
  | commonConversion (op_type : String) (converter : Option (Except String (List Nat)))
      (converter_named_and_indexed : Option (Except String (List Nat))) : Extension
  | tfConversion (op_type : String) (converter : Translator) : Extension
  | other : Extension
deriving DecidableEq, Repr

/-- `FrontEnd::add_extension` (frontend.cpp lines 336-364): a telemetry
extension replaces the sink; a decoder-transformation extension is appended; a
shared-object wrapper is unwrapped, its inner extension added, and the handle
recorded; a generic conversion extension registers its indexed converter (or
else its named-and-indexed converter) wrapped as a translator, and one
supplying neither is only recorded; a TensorFlow-specific conversion extension
registers its converter directly; anything else falls off the cast chain and
leaves the state unchanged. -/
def add_extension (fe : FEState) (ext : Extension) : FEState :=
  match ext with
  | .telemetry => { fe with m_telemetry := true }
  | .decoderTransformation =>
    { fe with m_transformation_extensions := fe.m_transformation_extensions ++ [()] }
  | .soExtension inner =>
    let fe1 := add_extension fe inner
    { fe1 with m_extensions := fe1.m_extensions ++ [()] }
  | .commonConversion op_type converter converter_named_and_indexed =>
    let fe1 := { fe with m_conversion_extensions := fe.m_conversion_extensions ++ [()] }
    match converter with
    | some c => { fe1 with m_op_translators := setKey fe1.m_op_translators op_type ⟨c⟩ }
    | none =>
      match converter_named_and_indexed with
      | some c => { fe1 with m_op_translators := setKey fe1.m_op_translators op_type ⟨c⟩ }
      | none => fe1
  | .tfConversion op_type converter =>
    { fe with
      m_conversion_extensions := fe.m_conversion_extensions ++ [()],
      m_op_translators := setKey fe.m_op_translators op_type converter }
  | .other => fe

/-! ## The conversion pipeline -/

/-- An opaque handle for a TensorFlow `InputModel`, i.e. the result of a
successful `dynamic_pointer_cast<InputModel>` of the supplied
`ov::frontend::InputModel::Ptr`.  The pipeline functions take an
`Option TFModel`: `none` models a pointer of the wrong dynamic kind. -/
structure TFModel where
  id : Nat
deriving DecidableEq, Repr

/-- Modelled from the spec: the external collaborators of the pipeline whose
code is not part of the file under study.  `session` is the
`TranslateSession::get_converted_model` of `translate_session.cpp` (spec 4.2:
walks the decoded graph with the given translator-dictionary snapshot and
always produces an IR graph, turning unsupported or failed nodes into
Placeholder nodes rather than aborting).  `stageA` is the combined effect of
the always-run normalization pass manager (SavedModelUnusedRemover through
ConstToResultRemover), `stageB` the combined effect of the conditional pass
manager (TransposeSinkingGeneral, ReverseShapeAndTypeInfer), and `transform`
the combined effect of the passes registered by the decoder-transformation
extensions; each pass is an opaque `run(graph)` unit per spec section 1. -/
structure Oracle where
  session : List (String × Translator) → TFModel → Graph
  stageA : Graph → Graph
  stageB : Graph → Graph
  transform : Graph → Graph

/-- Observable events of one pipeline run, in execution order. -/
inductive Ev : Type where
  | sessionRun : Ev
  | decodeSessionRun : Ev
  | transformPasses : Ev
  | retryTranslate : Ev
  | stageA : Ev
  | normCollect : Ev
  | stageB : Ev
  | convertCollect : Ev
  | telemetry (category : String) (payload : String) : Ev
  | strictCheck : Ev
deriving DecidableEq, Repr

/-- The diagnostic line `convert` appends for one entry of the failure map
(frontend.cpp lines 214-215). -/
def failureChunk (op_type msg : String) : String :=
  "[TensorFlow Frontend] Internal error: conversion is failed for " ++ op_type ++
    " operation with a message:\n" ++ msg ++ "\n"

/-- The diagnostic line `convert` appends when unsupported operations exist,
naming only the first one (frontend.cpp lines 227-228). -/
def noTranslatorChunk (op_type : String) : String :=
  "[TensorFlow Frontend] Internal error: No translator found for " ++ op_type ++ " node."

/-- Sequential concatenation, as performed by the `std::stringstream`. -/
def strConcat : List String → String
  | [] => ""
  | s :: rest => s ++ strConcat rest

/-- The full `exception_message` built by `convert` (frontend.cpp lines
209-229): one `failureChunk` per failure-map entry, then — when any
unsupported operation exists — the `noTranslatorChunk` of the first one. -/
def convertErrMsg (unsupported_operations : List String)
    (failures : List (String × String)) : String :=
  strConcat (failures.map (fun failure => failureChunk failure.1 failure.2)) ++
    (match unsupported_operations with
     | [] => ""
     | t :: _ => noTranslatorChunk t)

/-- `FrontEnd::normalize` (frontend.cpp lines 306-334): run the structural
(Stage A) pass manager, then re-run the collector on the whole graph; when it
reports any unsupported operation or failure, return early, otherwise run the
transpose-sinking / reverse-inference (Stage B) pass manager. -/
def normalize (o : Oracle) (model : Graph) : Graph × List Ev :=
  let model1 := o.stageA model
  let acc := get_unsupported_operations_and_failures model1 ([], [])
  if 0 < acc.1.length ∨ 0 < acc.2.length then (model1, [.stageA, .normCollect])
  else (o.stageB model1, [.stageA, .normCollect, .stageB])

/-- The boundary op types translated by `decode`
(`const std::set<std::string> required_types`, iterated in sorted order). -/
def requiredTypes : List String := ["NoOp", "Placeholder"]

/-- `FrontEnd::decode` (frontend.cpp lines 271-291): run a translate session
whose dictionary holds only the boundary translators taken from the instance
registry. -/
def decode (o : Oracle) (fe : FEState) (m : TFModel) : Graph × List Ev :=
  let translator_map := fe.m_op_translators.filter (fun p => requiredTypes.contains p.1)
  (o.session translator_map m, [.decodeSessionRun])

/-- The loop of the `Model` overload of `FrontEnd::convert` (frontend.cpp
lines 294-298): for every `FrameworkNode` of the top-level graph, in order,
re-run translation via `translate_framework_node` — raising when the stored op
type has no translator, propagating a raising translator, and otherwise
replacing the placeholder with the real translation (nested subgraphs are not
visited by this loop). -/
def retry_nodes (op_translators : List (String × Translator)) : Graph → Except String Graph
  | .nil => .ok .nil
  | .cons fw subs rest =>
    match fw with
    | none => (retry_nodes op_translators rest).map (fun r => .cons none subs r)
    | some d =>
      match lookupKey op_translators d.opType with
      | none => .error ("No translator found for " ++ d.opType ++ " node.")
      | some translator =>
        match translator.run with
        | .error e => .error e
        | .ok _ => (retry_nodes op_translators rest).map (fun r => .cons none subs r)

/-- The `Model` overload of `FrontEnd::convert` (frontend.cpp lines 293-304):
retry-translate every remaining `FrameworkNode`, then normalize
(`validate_and_infer_types` is shape-inference machinery outside this core). -/
def convert_model (o : Oracle) (fe : FEState) (partiallyConverted : Graph) :
    Except String Graph × List Ev :=
  match retry_nodes fe.m_op_translators partiallyConverted with
  | .error e => (.error e, [.retryTranslate])
  | .ok ns =>
    let r := normalize o ns
    (.ok r.1, .retryTranslate :: r.2)

/-- `FrontEnd::convert_partially` (frontend.cpp lines 237-269): check the
model cast; when transformation extensions are registered, decode, run their
passes, and re-convert the decoded graph via the retry loop; otherwise run a
translate session over a clone of the registry and normalize the result. -/
def convert_partially (o : Oracle) (fe : FEState) (model : Option TFModel) :
    Except String Graph × List Ev :=
  match model with
  | none => (.error "Invalid input model", [])
  | some m =>
    if !fe.m_transformation_extensions.isEmpty then
      let d := decode o fe m
      let function1 := o.transform d.1
      match convert_model o fe function1 with
      | (.error e, cevs) => (.error e, d.2 ++ .transformPasses :: cevs)
      | (.ok g2, cevs) => (.ok g2, d.2 ++ .transformPasses :: cevs)
    else
      let translator_map := fe.m_op_translators
      let f := o.session translator_map m
      let r := normalize o f
      (.ok r.1, .sessionRun :: r.2)

/-- `FrontEnd::convert` (frontend.cpp lines 202-235): convert partially,
collect unsupported operations and failures over the result, send one
telemetry event per unsupported-list entry when a sink is configured, build
the combined diagnostic message, and raise it unless both collections are
empty, otherwise return the graph. -/
def convert (o : Oracle) (fe : FEState) (model : Option TFModel) :
    Except String Graph × List Ev :=
  match convert_partially o fe model with
  | (.error e, evs) => (.error e, evs)
  | (.ok f, evs) =>
    let acc := get_unsupported_operations_and_failures f ([], [])
    let unsupported_operations := acc.1
    let failures := acc.2
    let telem :=
      if fe.m_telemetry then
        unsupported_operations.map (fun u => Ev.telemetry "error_cause" ("tf_" ++ u))
      else []
    let exception_message := convertErrMsg unsupported_operations failures
    let is_conversion_successful :=
      unsupported_operations.isEmpty && failures.isEmpty
    if is_conversion_successful then (.ok f, evs ++ .convertCollect :: telem ++ [.strictCheck])
    else (.error exception_message, evs ++ .convertCollect :: telem ++ [.strictCheck])

/-! ## Helper predicates and concrete inputs -/

/-- Telemetry events among the observable events. -/
def isTelemetryEv : Ev → Bool
  | .telemetry _ _ => true
  | _ => false

/-- `strContains b s`: `s` occurs contiguously inside `b`. -/
def strContains (b s : String) : Prop := ∃ x y, b = x ++ s ++ y

/-- A concrete input-model handle. -/
def exM : TFModel := ⟨0⟩

/-- A FrontEnd state with the default-constructed members: no telemetry, no
extensions (the registry of built-in translators is irrelevant here). -/
def exFE : FEState :=
  { m_op_translators := [], m_telemetry := false, m_transformation_extensions := [],
    m_conversion_extensions := [], m_extensions := [] }

/-- The same state with a telemetry sink configured. -/
def exFEtel : FEState := { exFE with m_telemetry := true }

/-- A state with one decoder-transformation extension registered and the two
boundary translators (which `decode` reads from the instance registry)
present; no translator for any other op type. -/
def exFEext : FEState :=
  { exFE with
    m_transformation_extensions := [()],
    m_op_translators := [("NoOp", ⟨.ok []⟩), ("Placeholder", ⟨.ok [0]⟩)] }

/-- An environment whose session produces the empty graph and whose passes do
nothing. -/
def exOracle : Oracle := { session := fun _ _ => .nil, stageA := id, stageB := id, transform := id }

/-- A one-node graph holding an unsupported placeholder for op type
`UnknownOp`. -/
def gUnknown : Graph := .cons (some ⟨"UnknownOp", none⟩) .nil .nil

/-- An environment whose session produces `gUnknown`. -/
def exOracleUnknown : Oracle :=
  { session := fun _ _ => gUnknown, stageA := id, stageB := id, transform := id }

/-- A one-node graph holding a failed placeholder for op type `A`. -/
def gOneFailed : Graph := .cons (some ⟨"A", some "m1"⟩) .nil .nil

/-- An environment whose session produces `gOneFailed`. -/
def exOracleFailed : Oracle :=
  { session := fun _ _ => gOneFailed, stageA := id, stageB := id, transform := id }

/-- Two failed placeholders with the same op type `A` but different
messages. -/
def gTwoFailed : Graph :=
  .cons (some ⟨"A", some "m1"⟩) .nil (.cons (some ⟨"A", some "m2"⟩) .nil .nil)

/-- One failed placeholder (op type `A`) followed by one unsupported
placeholder (op type `B`): every tag has at most one placeholder. -/
def gMixed : Graph :=
  .cons (some ⟨"A", some "m1"⟩) .nil (.cons (some ⟨"B", none⟩) .nil .nil)

/-- A placeholder with three output ports whose consumers are inputs 1,2 / 3 /
4. -/
def exNode : FrameworkNodePorts := { op_type := "AddV2", outputs := [⟨[1, 2]⟩, ⟨[3]⟩, ⟨[4]⟩] }

/-- A translator producing two outputs (fewer than `exNode` has ports). -/
def exTranslator : Translator := ⟨.ok [10, 11]⟩

/-- A registry holding only `exTranslator` for `AddV2`. -/
def exReg : List (String × Translator) := [("AddV2", exTranslator)]

/-! # Theorems

## The collector as a fold over the flattened traversal -/

/-- The recursive collector is the left fold of `collectStep` over the
flattened traversal `fwListG`. -/
theorem collector_eq_foldl (g : Graph) :
    ∀ acc : CollectAcc,
      get_unsupported_operations_and_failures g acc = (fwListG g).foldl collectStep acc := by
  induction g with
  | nil => intro acc; rfl
  | cons fw subs rest ihs ihr =>
    intro acc
    simp only [get_unsupported_operations_and_failures, fwListG, List.foldl_append, ihs, ihr]
    cases fw with
    | none => rfl
    | some d => rfl

/-- Shape of a collector step on a node without a failure message: the
unsupported list grows unless the tag is present; the failure map is
untouched. -/
theorem collectStep_unsupported (acc : CollectAcc) (d : FWData) (h : d.failedMsg = none) :
    collectStep acc d = if d.opType ∈ acc.1 then acc else (acc.1 ++ [d.opType], acc.2) := by
  unfold collectStep
  rw [h]

/-- Shape of a collector step on a failed node whose tag is not yet recorded:
the failure is recorded and the unsupported list is untouched. -/
theorem collectStep_failed_new (acc : CollectAcc) (d : FWData) (m : String)
    (h : d.failedMsg = some m) (h2 : lookupKey acc.2 d.opType = none) :
    collectStep acc d = (acc.1, (d.opType, m) :: acc.2) := by
  unfold collectStep
  rw [h, h2]
  rfl

/-- Shape of a collector step on a failed node whose tag is already recorded:
the node is treated like an unsupported one. -/
theorem collectStep_failed_old (acc : CollectAcc) (d : FWData) (m m0 : String)
    (h : d.failedMsg = some m) (h2 : lookupKey acc.2 d.opType = some m0) :
    collectStep acc d = if d.opType ∈ acc.1 then acc else (acc.1 ++ [d.opType], acc.2) := by
  unfold collectStep
  rw [h, h2]
  rfl

/-- One collector step never removes an entry from the unsupported list. -/
theorem collectStep_mem_fst (acc : CollectAcc) (d : FWData) (t : String) (h : t ∈ acc.1) :
    t ∈ (collectStep acc d).1 := by
  cases hmsg : d.failedMsg with
  | none =>
    rw [collectStep_unsupported acc d hmsg]
    split
    · exact h
    · exact List.mem_append_left _ h
  | some m =>
    cases hx : lookupKey acc.2 d.opType with
    | none => rw [collectStep_failed_new acc d m hmsg hx]; exact h
    | some m0 =>
      rw [collectStep_failed_old acc d m m0 hmsg hx]
      split
      · exact h
      · exact List.mem_append_left _ h

/-- One collector step never changes an existing binding of the failure map. -/
theorem collectStep_lookup_snd (acc : CollectAcc) (d : FWData) (t : String) (m : String)
    (h : lookupKey acc.2 t = some m) : lookupKey (collectStep acc d).2 t = some m := by
  cases hmsg : d.failedMsg with
  | none =>
    rw [collectStep_unsupported acc d hmsg]
    split <;> exact h
  | some m' =>
    cases hx : lookupKey acc.2 d.opType with
    | none =>
      rw [collectStep_failed_new acc d m' hmsg hx]
      have hne : d.opType ≠ t := by
        intro he
        rw [he, h] at hx
        cases hx
      simpa [lookupKey, hne] using h
    | some m0 =>
      rw [collectStep_failed_old acc d m' m0 hmsg hx]
      split <;> exact h

/-- Unsupported-list membership is monotone along the fold. -/
theorem foldl_mem_fst (L : List FWData) :
    ∀ (acc : CollectAcc) (t : String), t ∈ acc.1 → t ∈ (L.foldl collectStep acc).1 := by
  induction L with
  | nil => intro acc t h; exact h
  | cons d rest ih =>
    intro acc t h
    exact ih (collectStep acc d) t (collectStep_mem_fst acc d t h)

/-- Failure-map bindings are stable along the fold. -/
theorem foldl_lookup_snd (L : List FWData) :
    ∀ (acc : CollectAcc) (t m : String), lookupKey acc.2 t = some m →
      lookupKey ((L.foldl collectStep acc).2) t = some m := by
  induction L with
  | nil => intro acc t m h; exact h
  | cons d rest ih =>
    intro acc t m h
    exact ih (collectStep acc d) t m (collectStep_lookup_snd acc d t m h)

/-- The failure map after the fold binds a tag to its existing binding or
else to the message of the first failed node with that tag. -/
theorem foldl_lookup_firstFail (L : List FWData) :
    ∀ (acc : CollectAcc) (t : String),
      lookupKey ((L.foldl collectStep acc).2) t = optOr (lookupKey acc.2 t) (firstFailMsg L t) := by
  induction L with
  | nil =>
    intro acc t
    cases h : lookupKey acc.2 t <;> simp [firstFailMsg, optOr, h]
  | cons d rest ih =>
    intro acc t
    rw [List.foldl_cons, ih]
    cases hmsg : d.failedMsg with
    | none =>
      have hstep : (collectStep acc d).2 = acc.2 := by
        rw [collectStep_unsupported acc d hmsg]
        split <;> rfl
      rw [hstep]
      have hff : firstFailMsg (d :: rest) t = firstFailMsg rest t := by
        simp [firstFailMsg, hmsg]
      rw [hff]
    | some m =>
      cases hacc : lookupKey acc.2 d.opType with
      | none =>
        have hstep : (collectStep acc d).2 = (d.opType, m) :: acc.2 := by
          rw [collectStep_failed_new acc d m hmsg hacc]
        rw [hstep]
        by_cases hk : d.opType = t
        · subst hk
          have h1 : lookupKey ((d.opType, m) :: acc.2) d.opType = some m := by
            simp [lookupKey]
          rw [h1, hacc]
          simp [optOr, firstFailMsg, hmsg]
        · have h1 : lookupKey ((d.opType, m) :: acc.2) t = lookupKey acc.2 t := by
            simp [lookupKey, hk]
          rw [h1]
          have hff : firstFailMsg (d :: rest) t = firstFailMsg rest t := by
            simp [firstFailMsg, hmsg, hk]
          rw [hff]
      | some m0 =>
        have hstep : (collectStep acc d).2 = acc.2 := by
          rw [collectStep_failed_old acc d m m0 hmsg hacc]
          split <;> rfl
        rw [hstep]
        by_cases hk : d.opType = t
        · subst hk
          rw [hacc]
          simp [optOr]
        · have hff : firstFailMsg (d :: rest) t = firstFailMsg rest t := by
            simp [firstFailMsg, hmsg, hk]
          rw [hff]

/-- A collector step preserves deduplication of the unsupported list. -/
theorem collectStep_nodup (acc : CollectAcc) (d : FWData) (h : acc.1.Nodup) :
    (collectStep acc d).1.Nodup := by
  have happ : ∀ t : String, t ∉ acc.1 → (acc.1 ++ [t]).Nodup := by
    intro t ht
    rw [List.nodup_append]
    exact ⟨h, List.nodup_singleton t, by
      intro a ha hb
      rw [List.mem_singleton] at hb
      rw [hb] at ha
      exact ht ha⟩
  cases hmsg : d.failedMsg with
  | none =>
    rw [collectStep_unsupported acc d hmsg]
    split
    · exact h
    case isFalse hmem => exact happ d.opType hmem
  | some m =>
    cases hx : lookupKey acc.2 d.opType with
    | none => rw [collectStep_failed_new acc d m hmsg hx]; exact h
    | some m0 =>
      rw [collectStep_failed_old acc d m m0 hmsg hx]
      split
      · exact h
      case isFalse hmem => exact happ d.opType hmem

/-- The unsupported list built by the fold is deduplicated. -/
theorem foldl_nodup (L : List FWData) :
    ∀ acc : CollectAcc, acc.1.Nodup → (L.foldl collectStep acc).1.Nodup := by
  induction L with
  | nil => intro acc h; exact h
  | cons d rest ih => intro acc h; exact ih (collectStep acc d) (collectStep_nodup acc d h)

/-- A collector step on a `FrameworkNode` always leaves at least one entry in
one of the two collections. -/
theorem collectStep_ne_empty (acc : CollectAcc) (d : FWData) :
    ¬((collectStep acc d).1 = [] ∧ (collectStep acc d).2 = []) := by
  rintro ⟨h1, h2⟩
  cases hmsg : d.failedMsg with
  | none =>
    rw [collectStep_unsupported acc d hmsg] at h1 h2
    by_cases hmem : d.opType ∈ acc.1
    · rw [if_pos hmem] at h1
      rw [h1] at hmem
      exact absurd hmem (List.not_mem_nil d.opType)
    · rw [if_neg hmem] at h1
      exact List.append_ne_nil_of_right_ne_nil acc.1 (by simp) h1
  | some m =>
    cases hx : lookupKey acc.2 d.opType with
    | none =>
      rw [collectStep_failed_new acc d m hmsg hx] at h2
      cases h2
    | some m0 =>
      rw [collectStep_failed_old acc d m m0 hmsg hx] at h1 h2
      by_cases hmem : d.opType ∈ acc.1
      · rw [if_pos hmem] at h1
        rw [h1] at hmem
        exact absurd hmem (List.not_mem_nil d.opType)
      · rw [if_neg hmem] at h1
        exact List.append_ne_nil_of_right_ne_nil acc.1 (by simp) h1

/-- A collector step preserves nonemptiness of the pair of collections. -/
theorem collectStep_preserves_ne (acc : CollectAcc) (d : FWData)
    (h : ¬(acc.1 = [] ∧ acc.2 = [])) :
    ¬((collectStep acc d).1 = [] ∧ (collectStep acc d).2 = []) := by
  rintro ⟨h1, h2⟩
  have hshape : (collectStep acc d = if d.opType ∈ acc.1 then acc
        else (acc.1 ++ [d.opType], acc.2)) ∨
      ∃ m, collectStep acc d = (acc.1, (d.opType, m) :: acc.2) := by
    cases hmsg : d.failedMsg with
    | none => exact Or.inl (collectStep_unsupported acc d hmsg)
    | some m =>
      cases hx : lookupKey acc.2 d.opType with
      | none => exact Or.inr ⟨m, collectStep_failed_new acc d m hmsg hx⟩
      | some m0 => exact Or.inl (collectStep_failed_old acc d m m0 hmsg hx)
  rcases hshape with hs | ⟨m, hs⟩
  · rw [hs] at h1 h2
    by_cases hmem : d.opType ∈ acc.1
    · rw [if_pos hmem] at h1 h2
      exact h ⟨h1, h2⟩
    · rw [if_neg hmem] at h1
      exact List.append_ne_nil_of_right_ne_nil acc.1 (by simp) h1
  · rw [hs] at h2
    cases h2

/-- Once the collections are nonempty, the rest of the fold keeps them so. -/
theorem foldl_preserves_ne (L : List FWData) :
    ∀ acc : CollectAcc, ¬(acc.1 = [] ∧ acc.2 = []) →
      ¬((L.foldl collectStep acc).1 = [] ∧ (L.foldl collectStep acc).2 = []) := by
  induction L with
  | nil => intro acc h; exact h
  | cons d rest ih => intro acc h; exact ih (collectStep acc d) (collectStep_preserves_ne acc d h)

/-- The collector reports nothing at all precisely when the graph (and every
nested subgraph) holds no `FrameworkNode`. -/
theorem collect_empty_iff (g : Graph) :
    get_unsupported_operations_and_failures g ([], []) = ([], []) ↔ fwListG g = [] := by
  rw [collector_eq_foldl g ([], [])]
  constructor
  · intro h
    cases hL : fwListG g with
    | nil => rfl
    | cons d rest =>
      rw [hL, List.foldl_cons] at h
      have := foldl_preserves_ne rest (collectStep ([], []) d) (collectStep_ne_empty ([], []) d)
      rw [h] at this
      exact absurd ⟨rfl, rfl⟩ this
  · intro h
    rw [h]
    rfl

/-- Counting a tag across a cons cell. -/
theorem countTag_cons (d : FWData) (rest : List FWData) (t : String) :
    countTag (d :: rest) t = (if d.opType = t then 1 else 0) + countTag rest t := by
  unfold countTag
  rw [List.filter_cons]
  by_cases h : d.opType = t
  · simp only [h, beq_self_eq_true, if_pos]
    simp only [List.length_cons]
    omega
  · simp [h]

/-- A member with the tag forces a positive count. -/
theorem countTag_pos (L : List FWData) (t : String) (d : FWData) (hd : d ∈ L)
    (ht : d.opType = t) : 1 ≤ countTag L t := by
  unfold countTag
  have hmem : d ∈ L.filter (fun d => d.opType == t) := List.mem_filter.mpr ⟨hd, by simp [ht]⟩
  exact List.length_pos_of_mem hmem

/-- The count over a tail never exceeds the count over the list. -/
theorem countTag_cons_le (d : FWData) (rest : List FWData) (t : String) :
    countTag rest t ≤ countTag (d :: rest) t := by
  rw [countTag_cons]
  omega

/-- Main disjointness induction: when every tag carried by some failed node
occurs on at most one `FrameworkNode` of the remaining traversal, and the
accumulator is disjoint, already-recorded failure tags never reappear, and
already-listed unsupported tags never reappear failed, then the final
collections are disjoint by tag. -/
theorem disjoint_fold (L : List FWData) :
    ∀ acc : CollectAcc,
      (∀ t, (∃ d ∈ L, d.opType = t ∧ d.failedMsg.isSome) → countTag L t ≤ 1) →
      (∀ t ∈ acc.1, lookupKey acc.2 t = none) →
      (∀ t, (lookupKey acc.2 t).isSome → ∀ d ∈ L, d.opType ≠ t) →
      (∀ t ∈ acc.1, ∀ d ∈ L, d.opType = t → d.failedMsg = none) →
      ∀ t ∈ (L.foldl collectStep acc).1, lookupKey ((L.foldl collectStep acc).2) t = none := by
  induction L with
  | nil =>
    intro acc _ hA _ _ t ht
    exact hA t ht
  | cons d rest ih =>
    intro acc hH hA hB hC t
    rw [List.foldl_cons]
    have hHrest : ∀ s, (∃ d' ∈ rest, d'.opType = s ∧ d'.failedMsg.isSome) →
        countTag rest s ≤ 1 := by
      rintro s ⟨d', hd', hp⟩
      exact le_trans (countTag_cons_le d rest s)
        (hH s ⟨d', List.mem_cons_of_mem d hd', hp⟩)
    cases hmsg : d.failedMsg with
    | none =>
      rw [collectStep_unsupported acc d hmsg]
      by_cases hmem : d.opType ∈ acc.1
      · rw [if_pos hmem]
        exact ih acc hHrest hA
          (fun s hs d' hd' => hB s hs d' (List.mem_cons_of_mem d hd'))
          (fun s hs d' hd' => hC s hs d' (List.mem_cons_of_mem d hd')) t
      · rw [if_neg hmem]
        refine ih (acc.1 ++ [d.opType], acc.2) hHrest ?_ ?_ ?_ t
        · intro s hs
          rcases List.mem_append.mp hs with hs1 | hs2
          · exact hA s hs1
          · rw [List.mem_singleton] at hs2
            subst hs2
            cases hx : lookupKey acc.2 d.opType with
            | none => rfl
            | some m0 =>
              exact absurd rfl (hB d.opType (by rw [hx]; rfl) d (List.mem_cons_self d rest))
        · intro s hs d' hd'
          exact hB s hs d' (List.mem_cons_of_mem d hd')
        · intro s hs d' hd' hop
          rcases List.mem_append.mp hs with hs1 | hs2
          · exact hC s hs1 d' (List.mem_cons_of_mem d hd') hop
          · rw [List.mem_singleton] at hs2
            subst hs2
            cases hdm : d'.failedMsg with
            | none => rfl
            | some m' =>
              exfalso
              have hcount := hH d.opType
                ⟨d', List.mem_cons_of_mem d hd', hop, by rw [hdm]; rfl⟩
              have h1 : 1 ≤ countTag rest d.opType := countTag_pos rest d.opType d' hd' hop
              rw [countTag_cons, if_pos rfl] at hcount
              omega
    | some m =>
      cases hx : lookupKey acc.2 d.opType with
      | some m0 =>
        exact absurd rfl (hB d.opType (by rw [hx]; rfl) d (List.mem_cons_self d rest))
      | none =>
        rw [collectStep_failed_new acc d m hmsg hx]
        refine ih (acc.1, (d.opType, m) :: acc.2) hHrest ?_ ?_ ?_ t
        · intro s hs
          have hne : d.opType ≠ s := by
            intro he
            have := hC s hs d (List.mem_cons_self d rest) he
            rw [this] at hmsg
            cases hmsg
          simp only [lookupKey, if_neg hne]
          exact hA s hs
        · intro s hs d' hd'
          by_cases hk : d.opType = s
          · subst hk
            intro hop
            have hcount := hH d.opType
              ⟨d, List.mem_cons_self d rest, rfl, by rw [hmsg]; rfl⟩
            rw [countTag_cons, if_pos rfl] at hcount
            have h1 : 1 ≤ countTag rest d.opType := countTag_pos rest d.opType d' hd' hop
            omega
          · simp only [lookupKey, if_neg hk] at hs
            exact hB s hs d' (List.mem_cons_of_mem d hd')
        · intro s hs d' hd' hop
          exact hC s hs d' (List.mem_cons_of_mem d hd') hop

/-! ## Substring containment in the aggregated diagnostic message -/

/-- Containment survives appending on the right. -/
theorem strContains_append_left (a b s : String) (h : strContains a s) :
    strContains (a ++ b) s := by
  obtain ⟨x, y, hx⟩ := h
  exact ⟨x, y ++ b, by rw [hx, String.append_assoc]⟩

/-- Containment survives appending on the left. -/
theorem strContains_append_right (a b s : String) (h : strContains b s) :
    strContains (a ++ b) s := by
  obtain ⟨x, y, hx⟩ := h
  exact ⟨a ++ x, y, by simp [hx, String.append_assoc]⟩

/-- Containment is transitive. -/
theorem strContains_trans (a b c : String) (h1 : strContains a b) (h2 : strContains b c) :
    strContains a c := by
  obtain ⟨x, y, hx⟩ := h1
  obtain ⟨u, v, hu⟩ := h2
  exact ⟨x ++ u, v ++ y, by simp [hx, hu, String.append_assoc]⟩

/-- Every member of a concatenated chunk list is contained in the result. -/
theorem strContains_concat_mem (L : List String) (s : String) (h : s ∈ L) :
    strContains (strConcat L) s := by
  induction L with
  | nil => cases h
  | cons c rest ih =>
    rcases List.mem_cons.mp h with h1 | h2
    · subst h1
      exact ⟨"", strConcat rest, by
        rw [String.empty_append]; rfl⟩
    · exact strContains_append_right c (strConcat rest) s (ih h2)

/-- The canonical containment witness. -/
theorem strContains_middle (x s y : String) : strContains (x ++ s ++ y) s := ⟨x, y, rfl⟩

/-- The failure line contains the op-type tag. -/
theorem failureChunk_contains_tag (t m : String) : strContains (failureChunk t m) t := by
  have h : failureChunk t m =
      "[TensorFlow Frontend] Internal error: conversion is failed for " ++ t ++
        (" operation with a message:\n" ++ (m ++ "\n")) := by
    unfold failureChunk
    rw [String.append_assoc, String.append_assoc]
  rw [h]
  exact strContains_middle _ t _

/-- The failure line contains the stored failure message. -/
theorem failureChunk_contains_msg (t m : String) : strContains (failureChunk t m) m := by
  unfold failureChunk
  exact strContains_middle
    ("[TensorFlow Frontend] Internal error: conversion is failed for " ++ t ++
      " operation with a message:\n") m "\n"

/-- The combined diagnostic message contains the failure line of every entry
of the failure map. -/
theorem convertErrMsg_contains_failure (u : List String) (f : List (String × String))
    (p : String × String) (hp : p ∈ f) :
    strContains (convertErrMsg u f) (failureChunk p.1 p.2) := by
  unfold convertErrMsg
  apply strContains_append_left
  have hmem : failureChunk p.1 p.2 ∈ f.map (fun q => failureChunk q.1 q.2) :=
    List.mem_map.mpr ⟨p, hp, rfl⟩
  exact strContains_concat_mem _ _ hmem

/-- When unsupported operations exist, the combined diagnostic message
contains the line naming the first one. -/
theorem convertErrMsg_contains_first_unsupported (t : String) (rest : List String)
    (f : List (String × String)) :
    strContains (convertErrMsg (t :: rest) f) (noTranslatorChunk t) := by
  unfold convertErrMsg
  apply strContains_append_right
  exact ⟨"", "", by rw [String.empty_append, String.append_empty]⟩

/-! ## Shape lemmas for the pipeline -/

/-- The size test of `normalize` is nonemptiness of the pair. -/
theorem collect_pos_iff (u : List String) (f : List (String × String)) :
    (0 < u.length ∨ 0 < f.length) ↔ ¬(u = [] ∧ f = []) := by
  constructor
  · rintro (h | h) ⟨h1, h2⟩
    · subst h1; simp at h
    · subst h2; simp at h
  · intro h
    by_contra hc
    push_neg at hc
    obtain ⟨h1, h2⟩ := hc
    exact h ⟨List.length_eq_zero.mp (by omega), List.length_eq_zero.mp (by omega)⟩

/-- `normalize` when the collector still reports a gap: Stage B is skipped. -/
theorem normalize_skipB (o : Oracle) (g : Graph)
    (h : 0 < (get_unsupported_operations_and_failures (o.stageA g) ([], [])).1.length ∨
      0 < (get_unsupported_operations_and_failures (o.stageA g) ([], [])).2.length) :
    normalize o g = (o.stageA g, [.stageA, .normCollect]) := by
  simp only [normalize]
  rw [if_pos h]

/-- `normalize` when the collector reports nothing: Stage B runs. -/
theorem normalize_runB (o : Oracle) (g : Graph)
    (h : ¬(0 < (get_unsupported_operations_and_failures (o.stageA g) ([], [])).1.length ∨
      0 < (get_unsupported_operations_and_failures (o.stageA g) ([], [])).2.length)) :
    normalize o g = (o.stageB (o.stageA g), [.stageA, .normCollect, .stageB]) := by
  simp only [normalize]
  rw [if_neg h]

/-! ## Claim C6 -/

/-- C6: `normalize` always runs the Stage A structural passes, and runs the
Stage B passes (transpose sinking and reverse shape/type inference) if and
only if the collector, re-run on the graph after Stage A (including nested
subgraphs), reports zero unsupported operations and zero failures; otherwise
Stage B is skipped entirely. -/
theorem C6_theorem (o : Oracle) (g : Graph) :
    Ev.stageA ∈ (normalize o g).2 ∧
      (Ev.stageB ∈ (normalize o g).2 ↔
        get_unsupported_operations_and_failures (o.stageA g) ([], []) = ([], [])) := by
  by_cases hc :
      0 < (get_unsupported_operations_and_failures (o.stageA g) ([], [])).1.length ∨
      0 < (get_unsupported_operations_and_failures (o.stageA g) ([], [])).2.length
  · rw [normalize_skipB o g hc]
    refine ⟨by simp, ?_, ?_⟩
    · intro hmem
      simp at hmem
    · intro hempty
      rw [hempty] at hc
      simp at hc
  · rw [normalize_runB o g hc]
    refine ⟨by simp, fun _ => ?_, fun _ => by simp⟩
    have h' : ¬¬((get_unsupported_operations_and_failures (o.stageA g) ([], [])).1 = [] ∧
        (get_unsupported_operations_and_failures (o.stageA g) ([], [])).2 = []) :=
      fun hn => hc ((collect_pos_iff _ _).mpr hn)
    obtain ⟨h1, h2⟩ := not_not.mp h'
    exact Prod.ext_iff.mpr ⟨h1, h2⟩

/-- C6 witness: the gating of Stage B at a concrete input. -/
theorem C6_witness :
    Ev.stageA ∈ (normalize exOracle Graph.nil).2 ∧
      (Ev.stageB ∈ (normalize exOracle Graph.nil).2 ↔
        get_unsupported_operations_and_failures (exOracle.stageA Graph.nil) ([], []) =
          ([], [])) :=
  C6_theorem exOracle Graph.nil

/-! ## Claim C10 -/

/-- C10: `add_extension` never raises for an unhandled extension: an extension
implementing none of the recognized capabilities leaves the whole state
unchanged, and a generic conversion extension supplying neither an indexed nor
a named-and-indexed converter leaves the translator registry unchanged. -/
theorem C10_theorem (fe : FEState) (op_type : String) :
    add_extension fe .other = fe ∧
      (add_extension fe (.commonConversion op_type none none)).m_op_translators =
        fe.m_op_translators := by
  exact ⟨rfl, rfl⟩

/-! ## Claim C8 -/

/-- C8: for each op-type tag the collector's failure map binds the tag to the
failure message of the first failed placeholder with that tag in traversal
order (later failed duplicates never overwrite it); the unsupported list is
deduplicated; and the whole computation is the fold of the classification step
over the flattened traversal that processes nested subgraphs immediately after
their owning node. -/
theorem C8_theorem (g : Graph) :
    (∀ t, lookupKey ((get_unsupported_operations_and_failures g ([], [])).2) t
        = firstFailMsg (fwListG g) t) ∧
    (get_unsupported_operations_and_failures g ([], [])).1.Nodup ∧
    (∀ acc, get_unsupported_operations_and_failures g acc = (fwListG g).foldl collectStep acc) := by
  refine ⟨?_, ?_, collector_eq_foldl g⟩
  · intro t
    rw [collector_eq_foldl g ([], []), foldl_lookup_firstFail (fwListG g) ([], []) t]
    rfl
  · rw [collector_eq_foldl g ([], [])]
    exact foldl_nodup (fwListG g) ([], []) List.nodup_nil

/-! ## Claim C1 -/

/-- C1 counterexample: on a graph with two failed placeholders sharing op type
`A`, the tag `A` ends up both in the unsupported list and as a key of the
failure map, so the two collections are not disjoint by tag. -/
theorem C1_counterexample :
    "A" ∈ (get_unsupported_operations_and_failures gTwoFailed ([], [])).1 ∧
    lookupKey ((get_unsupported_operations_and_failures gTwoFailed ([], [])).2) "A" =
      some "m1" := by
  decide

/-- C1 (amended): the unsupported list and the failure map are disjoint by tag
provided every op-type tag carried by some failed placeholder occurs on at
most one placeholder of the whole traversal (top-level and nested); the
counterexample shows the restriction is necessary. -/
theorem C1_amended (g : Graph)
    (H : ∀ t, (∃ d ∈ fwListG g, d.opType = t ∧ d.failedMsg.isSome) →
      countTag (fwListG g) t ≤ 1) :
    ∀ t ∈ (get_unsupported_operations_and_failures g ([], [])).1,
      lookupKey ((get_unsupported_operations_and_failures g ([], [])).2) t = none := by
  intro t ht
  rw [collector_eq_foldl g ([], [])] at ht ⊢
  exact disjoint_fold (fwListG g) ([], []) H
    (fun s hs => absurd hs (List.not_mem_nil s))
    (fun s hs => by simp [lookupKey] at hs)
    (fun s hs => absurd hs (List.not_mem_nil s))
    t ht

/-- C1 witness: on `gMixed` (one failed `A`, one unsupported `B`) the
hypothesis holds and the collections are disjoint at the listed tag `B`. -/
theorem C1_witness :
    lookupKey ((get_unsupported_operations_and_failures gMixed ([], [])).2) "B" = none := by
  refine C1_amended gMixed ?_ "B" (by decide)
  rintro t ⟨d, hd, hop, hsome⟩
  have hd' : d = ⟨"A", some "m1"⟩ ∨ d = ⟨"B", none⟩ := by
    simpa [gMixed, fwListG] using hd
  rcases hd' with h | h
  · subst h
    rw [← hop]
    decide
  · subst h
    simp at hsome

/-- The two possible traces of `normalize`. -/
theorem normalize_trace_cases (o : Oracle) (g : Graph) :
    (normalize o g).2 = [.stageA, .normCollect] ∨
    (normalize o g).2 = [.stageA, .normCollect, .stageB] := by
  by_cases hc :
      0 < (get_unsupported_operations_and_failures (o.stageA g) ([], [])).1.length ∨
      0 < (get_unsupported_operations_and_failures (o.stageA g) ([], [])).2.length
  · rw [normalize_skipB o g hc]
    exact Or.inl rfl
  · rw [normalize_runB o g hc]
    exact Or.inr rfl

/-- Without transformation extensions, `convert_partially` is the translate
session over the registry clone followed by `normalize`. -/
theorem convert_partially_noext (o : Oracle) (fe : FEState) (m : TFModel)
    (hext : fe.m_transformation_extensions = []) :
    convert_partially o fe (some m) =
      (.ok (normalize o (o.session fe.m_op_translators m)).1,
        .sessionRun :: (normalize o (o.session fe.m_op_translators m)).2) := by
  simp [convert_partially, hext]

/-! ## Claim C2 -/

/-- C2 counterexample: with a decoder-transformation extension registered and
an encountered node whose op type has no registered translator,
`convert_partially` raises (through the retry path) instead of returning a
graph with a Placeholder. -/
theorem C2_counterexample :
    (convert_partially exOracleUnknown exFEext (some exM)).1 =
      .error ("No translator found for " ++ "UnknownOp" ++ " node.") := by
  decide

/-- C2 (amended): when no transformation extensions are registered (and the
model handle is of the right kind), `convert_partially` returns an IR graph
unconditionally — coverage gaps become Placeholder nodes inside the session
instead of aborting; with transformation extensions the retry path can raise,
as the counterexample shows. -/
theorem C2_amended (o : Oracle) (fe : FEState) (m : TFModel)
    (hext : fe.m_transformation_extensions = []) :
    ∃ g : Graph, (convert_partially o fe (some m)).1 = .ok g := by
  rw [convert_partially_noext o fe m hext]
  exact ⟨(normalize o (o.session fe.m_op_translators m)).1, rfl⟩

/-- C2 witness: on a concrete configuration without extensions the partial
conversion returns a graph. -/
theorem C2_witness : ∃ g : Graph, (convert_partially exOracle exFE (some exM)).1 = .ok g :=
  C2_amended exOracle exFE exM rfl

/-! ## Claim C5 -/

/-- C5: whenever strict `convert` returns normally, the returned graph and
every nested subgraph at any depth contain zero Placeholder (Framework)
nodes. -/
theorem C5_theorem (o : Oracle) (fe : FEState) (model : Option TFModel) (g : Graph)
    (tr : List Ev) (h : convert o fe model = (.ok g, tr)) : fwListG g = [] := by
  unfold convert at h
  cases hp : convert_partially o fe model with
  | mk res evs =>
    rw [hp] at h
    cases res with
    | error e => simp at h
    | ok f =>
      simp only at h
      split at h
      case isTrue hcond =>
        rw [Prod.mk.injEq] at h
        obtain ⟨h1, _⟩ := h
        rw [Except.ok.injEq] at h1
        subst h1
        rw [Bool.and_eq_true, List.isEmpty_iff, List.isEmpty_iff] at hcond
        obtain ⟨hu, hfl⟩ := hcond
        exact (collect_empty_iff f).mp (Prod.ext_iff.mpr ⟨hu, hfl⟩)
      case isFalse _ =>
        rw [Prod.mk.injEq] at h
        obtain ⟨h1, _⟩ := h
        cases h1

/-- C5 witness: a concrete successful strict conversion yields a graph free of
Placeholder nodes. -/
theorem C5_witness : fwListG Graph.nil = [] :=
  C5_theorem exOracle exFE (some exM) Graph.nil
    [Ev.sessionRun, Ev.stageA, Ev.normCollect, Ev.stageB, Ev.convertCollect, Ev.strictCheck]
    (by decide)

/-! ## Claim C3 -/

/-- C3 counterexample: in a concrete strict conversion the Stage A
normalization event occurs strictly before the strict-check event (and before
the collector event), refuting the claim that Normalization runs only after
the strict failure check passes. -/
theorem C3_counterexample :
    Ev.stageA ∈ (convert exOracle exFE (some exM)).2 ∧
    Ev.strictCheck ∈ (convert exOracle exFE (some exM)).2 ∧
    (convert exOracle exFE (some exM)).2.indexOf Ev.stageA <
      (convert exOracle exFE (some exM)).2.indexOf Ev.convertCollect ∧
    (convert exOracle exFE (some exM)).2.indexOf Ev.stageA <
      (convert exOracle exFE (some exM)).2.indexOf Ev.strictCheck := by
  decide

/-- C3 (amended): in strict conversion (without transformation extensions)
the stages run in the order Translation Session, then Normalization (as the
final step of partial conversion), then the Collector, then telemetry, then
the strict failure check: Normalization runs before the check, not after
it. -/
theorem C3_amended (o : Oracle) (fe : FEState) (m : TFModel)
    (hext : fe.m_transformation_extensions = []) :
    ∃ t1 t2, (convert o fe (some m)).2 =
        Ev.sessionRun :: t1 ++ Ev.convertCollect :: t2 ++ [Ev.strictCheck] ∧
      Ev.stageA ∈ t1 ∧
      (∀ e ∈ t1, e = Ev.stageA ∨ e = Ev.normCollect ∨ e = Ev.stageB) ∧
      (∀ e ∈ t2, isTelemetryEv e = true) := by
  simp only [convert, convert_partially_noext o fe m hext]
  refine ⟨(normalize o (o.session fe.m_op_translators m)).2,
    if fe.m_telemetry then
      (get_unsupported_operations_and_failures
        (normalize o (o.session fe.m_op_translators m)).1 ([], [])).1.map
        (fun u => Ev.telemetry "error_cause" ("tf_" ++ u))
    else [], ?_, ?_, ?_, ?_⟩
  · split <;> simp
  · rcases normalize_trace_cases o (o.session fe.m_op_translators m) with hc | hc <;>
      rw [hc] <;> simp
  · rcases normalize_trace_cases o (o.session fe.m_op_translators m) with hc | hc <;>
      rw [hc] <;> intro e he <;> simp at he <;> rcases he with h | h <;> simp [h]
  · split
    · intro e he
      obtain ⟨u, _, hu⟩ := List.mem_map.mp he
      rw [← hu]
      rfl
    · intro e he
      cases he

/-- C3 witness: the amended stage ordering at a concrete input. -/
theorem C3_witness :
    ∃ t1 t2, (convert exOracle exFE (some exM)).2 =
        Ev.sessionRun :: t1 ++ Ev.convertCollect :: t2 ++ [Ev.strictCheck] ∧
      Ev.stageA ∈ t1 ∧
      (∀ e ∈ t1, e = Ev.stageA ∨ e = Ev.normCollect ∨ e = Ev.stageB) ∧
      (∀ e ∈ t2, isTelemetryEv e = true) :=
  C3_amended exOracle exFE exM rfl

/-! ## Claim C4 -/

/-- C4: strict `convert` raises if and only if the collector's unsupported
list or failure map over the partially converted graph is non-empty; the
raised message contains, for every entry of the failure map, that entry's
op-type tag and stored failure message (inside the per-failure line), plus,
when at least one unsupported operation exists, the line naming exactly the
first unsupported op-type tag; otherwise `convert` returns the graph. -/
theorem C4_theorem (o : Oracle) (fe : FEState) (m : TFModel) (f : Graph) (evs : List Ev)
    (u : List String) (fl : List (String × String))
    (hf : convert_partially o fe (some m) = (.ok f, evs))
    (hacc : get_unsupported_operations_and_failures f ([], []) = (u, fl)) :
    ((convert o fe (some m)).1 = .ok f ↔ (u = [] ∧ fl = [])) ∧
    (¬(u = [] ∧ fl = []) →
      (convert o fe (some m)).1 = .error (convertErrMsg u fl) ∧
      (∀ p ∈ fl, strContains (convertErrMsg u fl) (failureChunk p.1 p.2) ∧
        strContains (convertErrMsg u fl) p.1 ∧ strContains (convertErrMsg u fl) p.2) ∧
      (∀ t rest, u = t :: rest → strContains (convertErrMsg u fl) (noTranslatorChunk t))) := by
  have hconv : convert o fe (some m) =
      (if u.isEmpty && fl.isEmpty
        then (.ok f, evs ++ .convertCollect ::
          (if fe.m_telemetry then u.map (fun x => Ev.telemetry "error_cause" ("tf_" ++ x))
           else []) ++ [.strictCheck])
        else (.error (convertErrMsg u fl), evs ++ .convertCollect ::
          (if fe.m_telemetry then u.map (fun x => Ev.telemetry "error_cause" ("tf_" ++ x))
           else []) ++ [.strictCheck])) := by
    simp only [convert, hf, hacc]
  by_cases hempty : u = [] ∧ fl = []
  · obtain ⟨hu, hfl⟩ := hempty
    subst hu
    subst hfl
    rw [if_pos (by decide)] at hconv
    refine ⟨⟨fun _ => ⟨rfl, rfl⟩, fun _ => by rw [hconv]⟩, fun hne => absurd ⟨rfl, rfl⟩ hne⟩
  · have hb : ¬(u.isEmpty && fl.isEmpty) = true := by
      intro hc
      rw [Bool.and_eq_true, List.isEmpty_iff, List.isEmpty_iff] at hc
      exact hempty hc
    rw [if_neg hb] at hconv
    refine ⟨⟨fun hok => ?_, fun hc => absurd hc hempty⟩, fun _ => ⟨by rw [hconv], ?_, ?_⟩⟩
    · rw [hconv] at hok
      cases hok
    · intro p hp
      refine ⟨convertErrMsg_contains_failure u fl p hp, ?_, ?_⟩
      · exact strContains_trans _ _ _ (convertErrMsg_contains_failure u fl p hp)
          (failureChunk_contains_tag p.1 p.2)
      · exact strContains_trans _ _ _ (convertErrMsg_contains_failure u fl p hp)
          (failureChunk_contains_msg p.1 p.2)
    · intro t rest hu
      subst hu
      exact convertErrMsg_contains_first_unsupported t rest fl

/-- C4 witness: a conversion with one failed placeholder raises the combined
message. -/
theorem C4_witness :
    (convert exOracleFailed exFE (some exM)).1 = .error (convertErrMsg [] [("A", "m1")]) :=
  ((C4_theorem exOracleFailed exFE exM gOneFailed [Ev.sessionRun, Ev.stageA, Ev.normCollect]
    [] [("A", "m1")] (by decide) (by decide)).2 (by simp)).1

/-! ## Claim C7 -/

/-- Every consumer of an old port below the lockstep bound is rewired to the
positionally matching new output. -/
theorem rewirePorts_forward (olds : List OutPort) :
    ∀ (ns : List Nat) (i : Nat) (p : OutPort) (o c : Nat),
      olds[i]? = some p → ns[i]? = some o → c ∈ p.consumers →
      (c, o) ∈ rewirePorts olds ns := by
  induction olds with
  | nil =>
    intro ns i p o c hp _ _
    simp at hp
  | cons hd tl ih =>
    intro ns i p o c hp hn hc
    cases ns with
    | nil => simp at hn
    | cons n ns' =>
      cases i with
      | zero =>
        rw [List.getElem?_cons_zero, Option.some.injEq] at hp hn
        subst hp
        subst hn
        exact List.mem_append_left _ (List.mem_map.mpr ⟨c, hc, rfl⟩)
      | succ j =>
        rw [List.getElem?_cons_succ] at hp hn
        exact List.mem_append_right _ (ih ns' j p o c hp hn hc)

/-- Every performed rewiring comes from a consumer of an old port below the
lockstep bound and its positionally matching new output: ports beyond the
bound on either side are left alone. -/
theorem rewirePorts_backward (olds : List OutPort) :
    ∀ (ns : List Nat) (c o : Nat), (c, o) ∈ rewirePorts olds ns →
      ∃ (i : Nat) (p : OutPort), olds[i]? = some p ∧ ns[i]? = some o ∧ c ∈ p.consumers := by
  induction olds with
  | nil =>
    intro ns c o h
    cases ns <;> simp [rewirePorts] at h
  | cons hd tl ih =>
    intro ns c o h
    cases ns with
    | nil => simp [rewirePorts] at h
    | cons n ns' =>
      unfold rewirePorts at h
      rcases List.mem_append.mp h with h1 | h2
      · obtain ⟨c', hc', heq⟩ := List.mem_map.mp h1
        rw [Prod.mk.injEq] at heq
        obtain ⟨hc2, hn2⟩ := heq
        subst hc2
        subst hn2
        exact ⟨0, hd, by simp, by simp, hc'⟩
      · obtain ⟨j, p, hp, hn, hc⟩ := ih ns' c o h2
        exact ⟨j + 1, p, by rw [List.getElem?_cons_succ]; exact hp,
          by rw [List.getElem?_cons_succ]; exact hn, hc⟩

/-- C7: the targeted retry path raises exactly the no-translator error when
the placeholder's stored op type has no registered translator; otherwise (its
translator succeeding) it returns, without any truncation error, the
rewirings that redirect every existing consumer of the placeholder's i-th
output port to the translator's i-th output, for precisely the indices below
the minimum of the two output counts, in port order. -/
theorem C7_theorem (node : FrameworkNodePorts) (op_translators : List (String × Translator)) :
    (lookupKey op_translators node.op_type = none →
      translate_framework_node node op_translators =
        .error ("No translator found for " ++ node.op_type ++ " node.")) ∧
    (∀ translator outs rws, lookupKey op_translators node.op_type = some translator →
      translator.run = .ok outs →
      translate_framework_node node op_translators = .ok rws →
      ((∀ (i : Nat) (p : OutPort) (o c : Nat),
          node.outputs[i]? = some p → outs[i]? = some o → c ∈ p.consumers →
          (c, o) ∈ rws) ∧
        (∀ c o : Nat, (c, o) ∈ rws →
          ∃ (i : Nat) (p : OutPort),
            node.outputs[i]? = some p ∧ outs[i]? = some o ∧ c ∈ p.consumers))) ∧
    (∀ translator outs, lookupKey op_translators node.op_type = some translator →
      translator.run = .ok outs →
      ∃ rws, translate_framework_node node op_translators = .ok rws) := by
  refine ⟨?_, ?_, ?_⟩
  · intro h
    unfold translate_framework_node
    rw [h]
  · intro translator outs rws h1 h2 h3
    unfold translate_framework_node at h3
    simp only [h1, h2] at h3
    rw [Except.ok.injEq] at h3
    subst h3
    exact ⟨fun i p o c hp ho hc => rewirePorts_forward node.outputs outs i p o c hp ho hc,
      fun c o hm => rewirePorts_backward node.outputs outs c o hm⟩
  · intro translator outs h1 h2
    unfold translate_framework_node
    simp only [h1, h2]
    exact ⟨_, rfl⟩

/-- C7 witness: the concrete placeholder with three ports and a translator
producing two outputs is retried without error. -/
theorem C7_witness : ∃ rws, translate_framework_node exNode exReg = .ok rws :=
  (C7_theorem exNode exReg).2.2 exTranslator [10, 11] (by decide) rfl

/-! ## Claim C9 -/

/-- `normalize` emits no telemetry events. -/
theorem normalize_trace_no_telemetry (o : Oracle) (g : Graph) :
    ((normalize o g).2).filter isTelemetryEv = [] := by
  rcases normalize_trace_cases o g with hc | hc <;> rw [hc] <;> rfl

/-- The telemetry payload map is injective. -/
theorem telemetry_payload_injective :
    Function.Injective (fun t => Ev.telemetry "error_cause" ("tf_" ++ t)) := by
  intro a b h
  simp only [Ev.telemetry.injEq] at h
  obtain ⟨_, h2⟩ := h
  have hd := congrArg String.data h2
  rw [String.data_append, String.data_append] at hd
  exact String.ext (List.append_cancel_left hd)

/-- C9: in strict `convert` with a telemetry sink configured (and no
transformation extensions), the telemetry events of the run are exactly one
event per entry of the collector's deduplicated unsupported list — hence
exactly one per distinct unsupported op-type tag — and none for translation
failures (removing all telemetry events leaves none unaccounted for). -/
theorem C9_theorem (o : Oracle) (fe : FEState) (m : TFModel) (f : Graph) (evs : List Ev)
    (hext : fe.m_transformation_extensions = [])
    (htel : fe.m_telemetry = true)
    (hf : convert_partially o fe (some m) = (.ok f, evs)) :
    (convert o fe (some m)).2.filter isTelemetryEv =
      (get_unsupported_operations_and_failures f ([], [])).1.map
        (fun t => Ev.telemetry "error_cause" ("tf_" ++ t)) ∧
    (get_unsupported_operations_and_failures f ([], [])).1.Nodup ∧
    ((convert o fe (some m)).2.filter isTelemetryEv).Nodup := by
  have hfe := convert_partially_noext o fe m hext
  rw [hf, Prod.mk.injEq, Except.ok.injEq] at hfe
  obtain ⟨hfeq, hevs⟩ := hfe
  have hnodup : (get_unsupported_operations_and_failures f ([], [])).1.Nodup := by
    rw [collector_eq_foldl f ([], [])]
    exact foldl_nodup (fwListG f) ([], []) List.nodup_nil
  have hconv : (convert o fe (some m)).2 =
      evs ++ .convertCollect ::
        ((get_unsupported_operations_and_failures f ([], [])).1.map
          (fun x => Ev.telemetry "error_cause" ("tf_" ++ x))) ++ [.strictCheck] := by
    simp only [convert, hf, htel, if_true]
    split <;> rfl
  have hfilter : (convert o fe (some m)).2.filter isTelemetryEv =
      (get_unsupported_operations_and_failures f ([], [])).1.map
        (fun t => Ev.telemetry "error_cause" ("tf_" ++ t)) := by
    have h1 : evs.filter isTelemetryEv = [] := by
      rw [hevs]
      have h2 := normalize_trace_no_telemetry o (o.session fe.m_op_translators m)
      simp [isTelemetryEv, h2]
    have h3 : ((get_unsupported_operations_and_failures f ([], [])).1.map
        (fun x => Ev.telemetry "error_cause" ("tf_" ++ x))).filter isTelemetryEv =
        (get_unsupported_operations_and_failures f ([], [])).1.map
          (fun x => Ev.telemetry "error_cause" ("tf_" ++ x)) := by
      apply List.filter_eq_self.mpr
      intro e he
      obtain ⟨x, _, hx⟩ := List.mem_map.mp he
      rw [← hx]
      rfl
    rw [hconv, List.filter_append, List.filter_append, h1, List.nil_append]
    have h4 : List.filter isTelemetryEv [Ev.strictCheck] = [] := rfl
    rw [h4, List.append_nil]
    have h5 : List.filter isTelemetryEv
        (Ev.convertCollect :: (get_unsupported_operations_and_failures f ([], [])).1.map
          (fun x => Ev.telemetry "error_cause" ("tf_" ++ x))) =
        List.filter isTelemetryEv
          ((get_unsupported_operations_and_failures f ([], [])).1.map
            (fun x => Ev.telemetry "error_cause" ("tf_" ++ x))) := rfl
    rw [h5, h3]
  exact ⟨hfilter, hnodup, by
    rw [hfilter]
    exact hnodup.map telemetry_payload_injective⟩

/-- C9 witness: with telemetry configured and no unsupported operations, the
run contains exactly the telemetry events of the (empty) unsupported list. -/
theorem C9_witness :
    (convert exOracle exFEtel (some exM)).2.filter isTelemetryEv =
      (get_unsupported_operations_and_failures Graph.nil ([], [])).1.map
        (fun t => Ev.telemetry "error_cause" ("tf_" ++ t)) :=
  (C9_theorem exOracle exFEtel exM Graph.nil
    [Ev.sessionRun, Ev.stageA, Ev.normCollect, Ev.stageB] rfl rfl (by decide)).1

end OvTf
